import Mathlib

/-!
Verification of the question-store / session-dispenser core of the
quiz backend (`question_manager.py`).

Strings are modelled as `List Char` (a Python `str` is a sequence of
Unicode code points, which `Char` matches).  Python library calls that
are external to the repository are modelled as follows:

* `unicodedata.normalize("NFKD", s)` followed by stripping combining
  characters and `str.lower()` — the Unicode tables are external, so this
  prefix of the normalization routine is abstracted as a function
  parameter `pre : List Char → List Char`.  On ASCII inputs the real
  prefix acts exactly as ASCII lowercasing (`asciiFold` below): NFKD is
  the identity on ASCII, ASCII has no combining characters, and
  `str.lower` is ASCII lowercasing there.  All concrete inputs evaluated
  in this development are ASCII.
* `hashlib.sha256` — abstracted as a function parameter
  `sha : List Nat → List Nat` from a byte sequence to the digest bytes;
  `encode("utf-8")` and `hexdigest()` are modelled concretely.
* Python's `re` word/space classes: `\s` (and `str.strip` / `str.split`
  whitespace) is modelled by `isPySpace`, the exact set of code points
  Python treats as whitespace.  `\b` boundaries are decided by `\w`,
  modelled by `isWordChar` over the ASCII word characters
  `[a-zA-Z0-9_]`; Python additionally counts non-ASCII letters and
  digits as word characters, which never matters for the ASCII inputs
  evaluated here.
-/

namespace QM

/-- The set of code points Python's `str.isspace` / regex `\s` match
(32 is `' '`, 9–13 are `\t\n\v\f\r`, the rest are the Unicode
whitespace code points Python includes). -/
def isPySpace (c : Char) : Bool :=
  c.toNat == 32 || (9 ≤ c.toNat && c.toNat ≤ 13) || (28 ≤ c.toNat && c.toNat ≤ 31) ||
  c.toNat == 133 || c.toNat == 160 || c.toNat == 5760 ||
  (8192 ≤ c.toNat && c.toNat ≤ 8202) || c.toNat == 8232 || c.toNat == 8233 ||
  c.toNat == 8239 || c.toNat == 8287 || c.toNat == 12288

/-- `'0'`–`'9'`. -/
def isAsciiDigit (c : Char) : Bool := 48 ≤ c.toNat && c.toNat ≤ 57

/-- `'a'`–`'z'`. -/
def isAsciiLowerAlpha (c : Char) : Bool := 97 ≤ c.toNat && c.toNat ≤ 122

/-- Regex word characters (`\w`), restricted to ASCII: letters, digits
and `'_'` (code point 95); see the file comment. -/
def isWordChar (c : Char) : Bool :=
  (97 ≤ c.toNat && c.toNat ≤ 122) || (65 ≤ c.toNat && c.toNat ≤ 90) ||
  (48 ≤ c.toNat && c.toNat ≤ 57) || c.toNat == 95

/-- ASCII lowercasing: map `'A'`–`'Z'` (65–90) down by 32. -/
def asciiLower (c : Char) : Char :=
  if 65 ≤ c.toNat && c.toNat ≤ 90 then Char.ofNat (c.toNat + 32) else c

/-- The NFKD + strip-combining + lowercase prefix of `_normalize_answer`,
as it acts on ASCII strings. -/
def asciiFold (s : List Char) : List Char := s.map asciiLower

/-- Python `str.strip()`: drop leading and trailing whitespace. -/
def pyStrip (s : List Char) : List Char :=
  (((s.dropWhile isPySpace).reverse).dropWhile isPySpace).reverse

/-- Helper for `pySplit`; `acc` is the current (reversed) token. -/
def pySplitAux : List Char → List Char → List (List Char)
  | [], acc => if acc.isEmpty then [] else [acc.reverse]
  | c :: cs, acc =>
    if isPySpace c then
      if acc.isEmpty then pySplitAux cs [] else acc.reverse :: pySplitAux cs []
    else pySplitAux cs (c :: acc)

/-- Python `str.split()` with no arguments: split on whitespace runs,
producing no empty tokens. -/
def pySplit (s : List Char) : List (List Char) := pySplitAux s []

/-- Python `line.split(d, 1)` when `d` occurs in `line`: the part before
the first occurrence of `d` and the part after it. -/
def splitOnFirst (delim : Char) : List Char → List Char × List Char
  | [] => ([], [])
  | c :: cs =>
    if c == delim then ([], cs)
    else (c :: (splitOnFirst delim cs).1, (splitOnFirst delim cs).2)

/-- Helper for `collapseWs`; the flag records whether the previous
character was whitespace (i.e. we are inside a run already replaced by
one space). -/
def collapseWsGo : Bool → List Char → List Char
  | _, [] => []
  | true, c :: cs =>
    if isPySpace c then collapseWsGo true cs else c :: collapseWsGo false cs
  | false, c :: cs =>
    if isPySpace c then ' ' :: collapseWsGo true cs else c :: collapseWsGo false cs

/-- `re.sub(r"\s+", " ", s)`: replace every whitespace run by one space. -/
def collapseWs (s : List Char) : List Char := collapseWsGo false s

/-- No two adjacent characters of the list are both `' '`. -/
def noDoubleSpace : List Char → Bool
  | [] => true
  | [_] => true
  | a :: b :: rest => !(a == ' ' && b == ' ') && noDoubleSpace (b :: rest)

/-- `\b` on the left of a match: start of string or a non-word character. -/
def boundaryLeft (prev : Option Char) : Bool :=
  match prev with
  | none => true
  | some c => !isWordChar c

/-- `\b` on the right of a match: end of string or a non-word character. -/
def boundaryRight : List Char → Bool
  | [] => true
  | c :: _ => !isWordChar c

/-- Scanner for `re.sub(rf"\b{w}\b", d, s)`: leftmost, non-overlapping
matches of the literal word `w` with word boundaries on both sides, each
replaced by `d`.  `prev` is the character of the source string just
before the current position.  `fuel` starts at the string length; every
step consumes at least one source character (matches have `w ≠ []`), so
the fuel never runs out on the real call. -/
def subWordGo (w d : List Char) : Nat → Option Char → List Char → List Char
  | 0, _, s => s
  | _ + 1, _, [] => []
  | fuel + 1, prev, c :: cs =>
    if w.isPrefixOf (c :: cs) && boundaryLeft prev &&
        boundaryRight (List.drop w.length (c :: cs)) then
      d ++ subWordGo w d fuel (some (w.getLastD c)) (List.drop w.length (c :: cs))
    else
      c :: subWordGo w d fuel (some c) cs

/-- `re.sub(rf"\b{re.escape(word)}\b", digit, s)` for a literal word. -/
def subWord (w d s : List Char) : List Char :=
  if w.isEmpty then s else subWordGo w d s.length none s

/-- `QuestionManager.NUMBER_WORDS`, in dict insertion order. -/
def NUMBER_WORDS : List (List Char × List Char) :=
  [("zero".data, "0".data), ("one".data, "1".data), ("two".data, "2".data),
   ("three".data, "3".data), ("four".data, "4".data), ("five".data, "5".data),
   ("six".data, "6".data), ("seven".data, "7".data), ("eight".data, "8".data),
   ("nine".data, "9".data), ("ten".data, "10".data), ("eleven".data, "11".data),
   ("twelve".data, "12".data)]

/-- The `for word, digit in self.NUMBER_WORDS.items(): s = re.sub(...)`
loop of `_normalize_answer`. -/
def substNumberWords (s : List Char) : List Char :=
  NUMBER_WORDS.foldl (fun acc p => subWord p.1 p.2 acc) s

/-- `re.sub(r"[^0-9a-z\s]", "", s)`: keep ASCII digits, ASCII lowercase
letters and whitespace. -/
def stripNonAlnumSpace (s : List Char) : List Char :=
  s.filter fun c => isAsciiDigit c || isAsciiLowerAlpha c || isPySpace c

/-- `QuestionManager._normalize_answer`.  `pre` is the external
NFKD + strip-combining + lowercase prefix (see file comment); the
remaining steps — number-word substitution, punctuation removal,
whitespace collapsing and trimming — are modelled exactly. -/
def normalize_answer (pre : List Char → List Char) : Option (List Char) → List Char
  | none => []
  | some s => pyStrip (collapseWs (stripNonAlnumSpace (substNumberWords (pre s))))

/-! ## Question store -/

/-- A parsed question record (`{"id": ..., "question": ..., "answer": ...}`). -/
structure QRecord where
  id : List Char
  question : List Char
  answer : List Char
deriving DecidableEq

def emptyRecord : QRecord := ⟨[], [], []⟩

/-- The error taxonomy of the core (the Python exceptions raised by
`QuestionManager`): `FileNotFoundError` = `ResourceNotFound`,
`ValueError` in loading = `EmptyStore`, `ValueError` in
`get_random_question` = `Exhausted`, `KeyError` = `UnknownQuestion`. -/
inductive QError where
  | ResourceNotFound
  | EmptyStore
  | Exhausted
  | UnknownQuestion
deriving DecidableEq

/-- One byte of UTF-8 output per list entry; `str.encode("utf-8")`. -/
def utf8EncodeChar (c : Char) : List Nat :=
  let n := c.toNat
  if n < 128 then [n]
  else if n < 2048 then [192 + n / 64, 128 + n % 64]
  else if n < 65536 then [224 + n / 4096, 128 + n / 64 % 64, 128 + n % 64]
  else [240 + n / 262144, 128 + n / 4096 % 64, 128 + n / 64 % 64, 128 + n % 64]

def utf8Encode (s : List Char) : List Nat := (s.map utf8EncodeChar).flatten

/-- Lowercase hex digit for a value below 16. -/
def hexDigitChar (n : Nat) : Char :=
  if n < 10 then Char.ofNat (48 + n) else Char.ofNat (87 + n)

def hexOfByte (b : Nat) : List Char := [hexDigitChar (b / 16 % 16), hexDigitChar (b % 16)]

/-- `hashlib`'s `hexdigest()`: two lowercase hex digits per digest byte. -/
def hexdigest (bytes : List Nat) : List Char := (bytes.map hexOfByte).flatten

/-- `QuestionManager._compute_id`: hex digest of the SHA-256 hash of the
UTF-8 encoding of the trimmed question text.  `sha` is the external
`hashlib.sha256` compression, abstracted (see file comment). -/
def compute_id (sha : List Nat → List Nat) (question_text : List Char) : List Char :=
  hexdigest (sha (utf8Encode (pyStrip question_text)))

/-- The per-line part of `QuestionManager._load_questions_internal`:
strip the raw line; skip it when blank, when `'|'` does not occur, or
when either part around the first `'|'` is empty after trimming;
otherwise produce the record. -/
def parseLine (sha : List Nat → List Nat) (raw : List Char) : Option QRecord :=
  let line := pyStrip raw
  if line.isEmpty then none
  else if !(line.contains '|') then none
  else
    let parts := splitOnFirst '|' line
    let question := pyStrip parts.1
    let answer := pyStrip parts.2
    if !question.isEmpty && !answer.isEmpty then
      some ⟨compute_id sha question, question, answer⟩
    else none

/-- `QuestionManager._load_questions_internal`.  The backing resource is
`none` when the file is missing, otherwise the list of its lines. -/
def load_questions_internal (sha : List Nat → List Nat)
    (file : Option (List (List Char))) : Except QError (List QRecord) :=
  match file with
  | none => Except.error QError.ResourceNotFound
  | some lines =>
    let parsed := lines.filterMap (parseLine sha)
    if parsed.isEmpty then Except.error QError.EmptyStore
    else Except.ok parsed

/-- Lookup in `self._id_map`, built as
`{rec["id"]: rec for rec in parsed}`: a later record with the same id
overwrites an earlier one, so lookup returns the last match. -/
def buildIdMap (parsed : List QRecord) (qid : List Char) : Option QRecord :=
  parsed.foldl (fun acc r => if r.id == qid then some r else acc) none

/-- The backing file as seen at one instant: its contents (`none` when
missing) and its modification timestamp. -/
structure FileSys where
  contents : Option (List (List Char))
  mtime : Nat

/-- The store's cached data: `self._questions` and `self._mtime`
(`self._id_map` is always `buildIdMap` of the sequence). -/
structure StoreState where
  questions : List QRecord
  mtimeSeen : Option Nat
deriving DecidableEq

/-- `QuestionManager._reload_if_needed`: missing file fails with
`ResourceNotFound`; otherwise re-parse when forced, when no timestamp
was recorded, or when the recorded timestamp differs from the current
one, swapping in the new sequence and recording the new timestamp.  An
error during re-parse leaves the cached state unchanged (the caller
keeps `st`). -/
def reload_if_needed (sha : List Nat → List Nat) (fs : FileSys) (st : StoreState)
    (force : Bool) : Except QError StoreState :=
  match fs.contents with
  | none => Except.error QError.ResourceNotFound
  | some lines =>
    if force || st.mtimeSeen.isNone || st.mtimeSeen != some fs.mtime then
      match load_questions_internal sha (some lines) with
      | Except.error e => Except.error e
      | Except.ok parsed => Except.ok ⟨parsed, some fs.mtime⟩
    else Except.ok st

/-! ## Session dispenser -/

/-- The dict returned by `get_random_question`: exactly the keys
`id`, `question` and `words` — there is no answer field. -/
structure DispResult where
  id : List Char
  question : List Char
  words : List (List Char)
deriving DecidableEq

/-- Python `set.add`. -/
def setAdd (x : List Char) (s : List (List Char)) : List (List Char) :=
  if s.contains x then s else x :: s

/-- The local variable `available` of `get_random_question`: the records
whose id is not in the used set. -/
def availableOf (qs : List QRecord) (used : List (List Char)) : List QRecord :=
  qs.filter fun r => !(used.contains r.id)

/-- The local variable `chosen` of `get_random_question`:
`random.choice(available)` draws a position below `len(available)`, so
it is modelled by an index chooser `pick : Nat → Nat` applied to the
length of `available` (theorems assume `0 < n → pick n < n`). -/
def chosenOf (pick : Nat → Nat) (qs : List QRecord) (used : List (List Char)) : QRecord :=
  (availableOf qs used).getD (pick (availableOf qs used).length) emptyRecord

/-- The body of `QuestionManager.get_random_question` after the reload
check: filter out used records, fail with `Exhausted` when none remain,
otherwise choose one, record its id as used and return
`{id, question, words}`. -/
def get_random_core (pick : Nat → Nat) (qs : List QRecord)
    (used : List (List Char)) : Except QError (DispResult × List (List Char)) :=
  if (availableOf qs used).isEmpty then Except.error QError.Exhausted
  else
    Except.ok (⟨(chosenOf pick qs used).id, (chosenOf pick qs used).question,
        pySplit (chosenOf pick qs used).question⟩,
      setAdd (chosenOf pick qs used).id used)

/-- The body of `QuestionManager.validate_answer` after the reload
check: unknown id fails with `UnknownQuestion` (`KeyError`); a `None`
answer returns `false`; otherwise compare the normalized stored answer
with the normalized user answer. -/
def validate_core (pre : List Char → List Char) (qs : List QRecord)
    (qid : List Char) (ua : Option (List Char)) : Except QError Bool :=
  match buildIdMap qs qid with
  | none => Except.error QError.UnknownQuestion
  | some r =>
    match ua with
    | none => Except.ok false
    | some a =>
      Except.ok (normalize_answer pre (some r.answer) == normalize_answer pre (some a))

/-- `QuestionManager.get_random_question` (reload check, then the core). -/
def get_random_question (sha : List Nat → List Nat) (pick : Nat → Nat) (fs : FileSys)
    (st : StoreState) (used : List (List Char)) :
    Except QError (DispResult × StoreState × List (List Char)) :=
  match reload_if_needed sha fs st false with
  | Except.error e => Except.error e
  | Except.ok st' =>
    match get_random_core pick st'.questions used with
    | Except.error e => Except.error e
    | Except.ok (res, used') => Except.ok (res, st', used')

/-- `QuestionManager.validate_answer` (reload check, then the core). -/
def validate_answer (sha : List Nat → List Nat) (pre : List Char → List Char)
    (fs : FileSys) (st : StoreState) (qid : List Char) (ua : Option (List Char)) :
    Except QError (Bool × StoreState) :=
  match reload_if_needed sha fs st false with
  | Except.error e => Except.error e
  | Except.ok st' =>
    match validate_core pre st'.questions qid ua with
    | Except.error e => Except.error e
    | Except.ok b => Except.ok (b, st')

/-- `QuestionManager.load_questions` (reload check, then project the
cached records to `(question, answer)` pairs). -/
def load_questions (sha : List Nat → List Nat) (fs : FileSys) (st : StoreState) :
    Except QError (List (List Char × List Char) × StoreState) :=
  match reload_if_needed sha fs st false with
  | Except.error e => Except.error e
  | Except.ok st' => Except.ok (st'.questions.map (fun r => (r.question, r.answer)), st')

/-- `QuestionManager.clear_cache`: `self._used.clear()`. -/
def clear_cache (_used : List (List Char)) : List (List Char) := []

/-- `QuestionManager.get_cache_size`: `len(self._used)`. -/
def get_cache_size (used : List (List Char)) : Nat := used.length

/-- Results (projected to the returned id) of `n` consecutive
`get_random_question` calls with no reload in between: a successful call
updates `used`, a failing call leaves it unchanged. -/
def callSeq (pick : Nat → Nat) (qs : List QRecord) :
    Nat → List (List Char) → List (Except QError (List Char))
  | 0, _ => []
  | n + 1, used =>
    match get_random_core pick qs used with
    | Except.error e => Except.error e :: callSeq pick qs n used
    | Except.ok (res, used') => Except.ok res.id :: callSeq pick qs n used'

/-- The ids of records not yet used: the store's distinct question
identities still available for dispensing. -/
def unusedSet (qs : List QRecord) (used : List (List Char)) : Finset (List Char) :=
  ((qs.map fun r => r.id).toFinset).filter fun i => i ∉ used

/-- The number of distinct question identities the store holds (records
with identical trimmed text share an id and hence an identity). -/
def numQuestions (qs : List QRecord) : Nat := (qs.map fun r => r.id).dedup.length

/-- A record equal to `r` with the canonical answer erased. -/
def eraseAnswer (r : QRecord) : QRecord := ⟨r.id, r.question, []⟩

/-- The shape of every `_normalize_answer` output: only ASCII digits,
ASCII lowercase letters and the space character; no two consecutive
spaces; no leading and no trailing space. -/
def NormalizedShape (out : List Char) : Prop :=
  (∀ c ∈ out, isAsciiDigit c = true ∨ isAsciiLowerAlpha c = true ∨ c = ' ') ∧
  noDoubleSpace out = true ∧ out.head? ≠ some ' ' ∧ out.getLast? ≠ some ' '

/-- Two records as produced by loading a file whose two lines carry the
same question text (`"q|a"` and `"q|b"`): by stable-id derivation they
share one id (written `"h"` here for concreteness). -/
def dupRecA : QRecord := ⟨"h".data, "q".data, "a".data⟩

def dupRecB : QRecord := ⟨"h".data, "q".data, "b".data⟩

/-- A store sequence of two records sharing one question identity. -/
def dupStore : List QRecord := [dupRecA, dupRecB]

/-! ## Character-class lemmas -/

theorem isPySpace_space : isPySpace ' ' = true := by decide

theorem not_isPySpace_of_isAsciiDigit {c : Char} (h : isAsciiDigit c = true) :
    isPySpace c = false := by
  simp only [isAsciiDigit, Bool.and_eq_true, decide_eq_true_eq] at h
  simp only [isPySpace, Bool.or_eq_false_iff, Bool.and_eq_false_iff, beq_eq_false_iff_ne,
    ne_eq, decide_eq_false_iff_not, Nat.not_le]
  omega

theorem not_isPySpace_of_isAsciiLowerAlpha {c : Char} (h : isAsciiLowerAlpha c = true) :
    isPySpace c = false := by
  simp only [isAsciiLowerAlpha, Bool.and_eq_true, decide_eq_true_eq] at h
  simp only [isPySpace, Bool.or_eq_false_iff, Bool.and_eq_false_iff, beq_eq_false_iff_ne,
    ne_eq, decide_eq_false_iff_not, Nat.not_le]
  omega

theorem eq_space_of_isPySpace_allowed {c : Char}
    (hc : isAsciiDigit c = true ∨ isAsciiLowerAlpha c = true ∨ c = ' ')
    (hs : isPySpace c = true) : c = ' ' := by
  rcases hc with h | h | h
  · rw [not_isPySpace_of_isAsciiDigit h] at hs; cases hs
  · rw [not_isPySpace_of_isAsciiLowerAlpha h] at hs; cases hs
  · exact h

theorem ne_space_of_not_isPySpace {c : Char} (h : isPySpace c = false) : c ≠ ' ' := by
  intro hc
  rw [hc, isPySpace_space] at h
  cases h

theorem asciiLower_eq_self_of_allowed {c : Char}
    (hc : isAsciiDigit c = true ∨ isAsciiLowerAlpha c = true ∨ c = ' ') :
    asciiLower c = c := by
  have : ¬(65 ≤ c.toNat ∧ c.toNat ≤ 90) := by
    rcases hc with h | h | h
    · simp only [isAsciiDigit, Bool.and_eq_true, decide_eq_true_eq] at h; omega
    · simp only [isAsciiLowerAlpha, Bool.and_eq_true, decide_eq_true_eq] at h; omega
    · subst h; decide
  simp only [asciiLower, Bool.and_eq_true, decide_eq_true_eq]
  rw [if_neg this]

/-! ## `noDoubleSpace` lemmas -/

theorem noDoubleSpace_cons (a : Char) (x : List Char) :
    noDoubleSpace (a :: x) =
      ((match x.head? with
        | some b => !(a == ' ' && b == ' ')
        | none => true) && noDoubleSpace x) := by
  cases x with
  | nil => rfl
  | cons b r => rfl

theorem noDoubleSpace_of_append_right {a x : List Char}
    (h : noDoubleSpace (a ++ x) = true) : noDoubleSpace x = true := by
  induction a with
  | nil => exact h
  | cons c a ih =>
    rw [List.cons_append, noDoubleSpace_cons, Bool.and_eq_true] at h
    exact ih h.2

theorem noDoubleSpace_of_append_left {x b : List Char}
    (h : noDoubleSpace (x ++ b) = true) : noDoubleSpace x = true := by
  induction x with
  | nil => rfl
  | cons c x ih =>
    rw [List.cons_append, noDoubleSpace_cons, Bool.and_eq_true] at h
    rw [noDoubleSpace_cons, Bool.and_eq_true]
    refine ⟨?_, ih h.2⟩
    cases x with
    | nil => rfl
    | cons d r => exact h.1

/-! ## `collapseWs` lemmas -/

theorem collapseWsGo_allowed {l : List Char}
    (h : ∀ c ∈ l, isAsciiDigit c = true ∨ isAsciiLowerAlpha c = true ∨ isPySpace c = true) :
    ∀ b, ∀ c ∈ collapseWsGo b l, isAsciiDigit c = true ∨ isAsciiLowerAlpha c = true ∨ c = ' ' := by
  induction l with
  | nil => intro b c hc; cases b <;> cases hc
  | cons a l ih =>
    intro b c hc
    have hTail : ∀ c ∈ l, isAsciiDigit c = true ∨ isAsciiLowerAlpha c = true ∨ isPySpace c = true :=
      fun c hc => h c (List.mem_cons_of_mem _ hc)
    have hHead := h a (List.mem_cons_self a l)
    by_cases ha : isPySpace a = true
    · cases b with
      | true =>
        rw [collapseWsGo, if_pos ha] at hc
        exact ih hTail true c hc
      | false =>
        rw [collapseWsGo, if_pos ha] at hc
        rcases List.mem_cons.mp hc with hc | hc
        · exact Or.inr (Or.inr hc)
        · exact ih hTail true c hc
    · have hstep : c ∈ a :: collapseWsGo false l := by
        cases b with
        | true => rw [collapseWsGo, if_neg ha] at hc; exact hc
        | false => rw [collapseWsGo, if_neg ha] at hc; exact hc
      rcases List.mem_cons.mp hstep with hc' | hc'
      · subst hc'
        rcases hHead with h' | h' | h'
        · exact Or.inl h'
        · exact Or.inr (Or.inl h')
        · exact absurd h' ha
      · exact ih hTail false c hc'

theorem collapseWsGo_true_head : ∀ l : List Char, ∀ c : Char,
    (collapseWsGo true l).head? = some c → isPySpace c = false := by
  intro l
  induction l with
  | nil => intro c hc; cases hc
  | cons a l ih =>
    intro c hc
    by_cases ha : isPySpace a = true
    · rw [collapseWsGo, if_pos ha] at hc
      exact ih c hc
    · rw [collapseWsGo, if_neg ha] at hc
      simp only [List.head?_cons, Option.some.injEq] at hc
      subst hc
      exact Bool.eq_false_iff.mpr ha

theorem collapseWsGo_noDoubleSpace : ∀ (l : List Char) (b : Bool),
    noDoubleSpace (collapseWsGo b l) = true := by
  intro l
  induction l with
  | nil => intro b; cases b <;> rfl
  | cons a l ih =>
    intro b
    by_cases ha : isPySpace a = true
    · cases b with
      | true =>
        rw [collapseWsGo, if_pos ha]
        exact ih true
      | false =>
        rw [collapseWsGo, if_pos ha]
        rw [noDoubleSpace_cons, Bool.and_eq_true]
        refine ⟨?_, ih true⟩
        cases hh : (collapseWsGo true l).head? with
        | none => rfl
        | some d =>
          have hd : isPySpace d = false := collapseWsGo_true_head l d hh
          have hd' : d ≠ ' ' := ne_space_of_not_isPySpace hd
          simp only [Bool.not_eq_eq_eq_not, Bool.not_true, Bool.and_eq_false_iff]
          exact Or.inr (beq_eq_false_iff_ne.mpr hd')
    · have hne : a ≠ ' ' := ne_space_of_not_isPySpace (Bool.eq_false_iff.mpr ha)
      have hstep : collapseWsGo b (a :: l) = a :: collapseWsGo false l := by
        cases b with
        | true => rw [collapseWsGo, if_neg ha]
        | false => rw [collapseWsGo, if_neg ha]
      rw [hstep, noDoubleSpace_cons, Bool.and_eq_true]
      refine ⟨?_, ih false⟩
      cases (collapseWsGo false l).head? with
      | none => rfl
      | some d =>
        simp only [Bool.not_eq_eq_eq_not, Bool.not_true, Bool.and_eq_false_iff]
        exact Or.inl (beq_eq_false_iff_ne.mpr hne)

/-! ## `pyStrip` lemmas -/

theorem head?_dropWhile (p : Char → Bool) : ∀ (l : List Char) (c : Char),
    (l.dropWhile p).head? = some c → p c = false := by
  intro l
  induction l with
  | nil => intro c hc; cases hc
  | cons a l ih =>
    intro c hc
    by_cases ha : p a = true
    · rw [List.dropWhile_cons, if_pos ha] at hc
      exact ih c hc
    · rw [List.dropWhile_cons, if_neg ha] at hc
      simp only [List.head?_cons, Option.some.injEq] at hc
      subst hc
      exact Bool.eq_false_iff.mpr ha

theorem dropWhile_suffix_decomp (p : Char → Bool) (l : List Char) :
    ∃ t, l = t ++ l.dropWhile p :=
  ⟨l.takeWhile p, (List.takeWhile_append_dropWhile p l).symm⟩

theorem pyStrip_front_decomp (l : List Char) :
    ∃ u, l.dropWhile isPySpace = pyStrip l ++ u := by
  obtain ⟨u, hu⟩ := dropWhile_suffix_decomp isPySpace (l.dropWhile isPySpace).reverse
  refine ⟨u.reverse, ?_⟩
  have h3 := congrArg List.reverse hu
  rw [List.reverse_reverse, List.reverse_append] at h3
  exact h3

theorem pyStrip_decomp (l : List Char) : ∃ t u, l = t ++ pyStrip l ++ u := by
  obtain ⟨u, hu⟩ := pyStrip_front_decomp l
  refine ⟨l.takeWhile isPySpace, u, ?_⟩
  rw [List.append_assoc, ← hu, List.takeWhile_append_dropWhile]

theorem mem_pyStrip {c : Char} {l : List Char} (h : c ∈ pyStrip l) : c ∈ l := by
  obtain ⟨t, u, hl⟩ := pyStrip_decomp l
  rw [hl]
  simp only [List.mem_append]
  exact Or.inl (Or.inr h)

theorem noDoubleSpace_pyStrip {l : List Char} (h : noDoubleSpace l = true) :
    noDoubleSpace (pyStrip l) = true := by
  obtain ⟨t, u, hl⟩ := pyStrip_decomp l
  rw [hl] at h
  have h1 : noDoubleSpace (pyStrip l ++ u) = true := by
    rw [List.append_assoc] at h
    exact noDoubleSpace_of_append_right h
  exact noDoubleSpace_of_append_left h1

theorem head?_pyStrip (l : List Char) (c : Char) (h : (pyStrip l).head? = some c) :
    isPySpace c = false := by
  obtain ⟨u, hu⟩ := pyStrip_front_decomp l
  cases hps : pyStrip l with
  | nil => rw [hps] at h; cases h
  | cons a zs =>
    rw [hps] at h
    simp only [List.head?_cons, Option.some.injEq] at h
    rw [← h]
    apply head?_dropWhile isPySpace l a
    rw [hu, hps]
    rfl

theorem getLast?_pyStrip (l : List Char) (c : Char) (h : (pyStrip l).getLast? = some c) :
    isPySpace c = false := by
  unfold pyStrip at h
  rw [List.getLast?_reverse] at h
  exact head?_dropWhile isPySpace _ c h

/-! ## The shape of normalization output -/

theorem stripNonAlnumSpace_allowed (l : List Char) :
    ∀ c ∈ stripNonAlnumSpace l,
      isAsciiDigit c = true ∨ isAsciiLowerAlpha c = true ∨ isPySpace c = true := by
  intro c hc
  have h1 := List.of_mem_filter hc
  rcases Bool.or_eq_true_iff.mp h1 with h2 | h2
  · rcases Bool.or_eq_true_iff.mp h2 with h3 | h3
    · exact Or.inl h3
    · exact Or.inr (Or.inl h3)
  · exact Or.inr (Or.inr h2)

theorem normalize_answer_shape (pre : List Char → List Char) (s : Option (List Char)) :
    NormalizedShape (normalize_answer pre s) := by
  cases s with
  | none =>
    refine ⟨?_, ?_, ?_, ?_⟩ <;> simp [normalize_answer, noDoubleSpace, NormalizedShape]
  | some s =>
    have hAllowedT := stripNonAlnumSpace_allowed (substNumberWords (pre s))
    set t := stripNonAlnumSpace (substNumberWords (pre s)) with ht
    have hout : normalize_answer pre (some s) = pyStrip (collapseWs t) := rfl
    refine ⟨?_, ?_, ?_, ?_⟩
    · intro c hc
      rw [hout] at hc
      exact collapseWsGo_allowed hAllowedT false c (mem_pyStrip hc)
    · rw [hout]
      exact noDoubleSpace_pyStrip (collapseWsGo_noDoubleSpace t false)
    · rw [hout]
      intro hh
      have := head?_pyStrip _ _ hh
      rw [isPySpace_space] at this
      cases this
    · rw [hout]
      intro hh
      have := getLast?_pyStrip _ _ hh
      rw [isPySpace_space] at this
      cases this

/-! ## Normalization fixes its own output (up to number words) -/

theorem map_id_of_mem {f : Char → Char} : ∀ l : List Char,
    (∀ c ∈ l, f c = c) → l.map f = l := by
  intro l
  induction l with
  | nil => intro _; rfl
  | cons a l ih =>
    intro h
    rw [List.map_cons, h a (List.mem_cons_self a l),
      ih fun c hc => h c (List.mem_cons_of_mem _ hc)]

theorem dropWhile_eq_self_of_head {p : Char → Bool} {l : List Char}
    (h : ∀ c, l.head? = some c → p c = false) : l.dropWhile p = l := by
  cases l with
  | nil => rfl
  | cons a l => simp [List.dropWhile_cons, h a rfl]

theorem collapseWsGo_id : ∀ l : List Char,
    (∀ c ∈ l, isAsciiDigit c = true ∨ isAsciiLowerAlpha c = true ∨ c = ' ') →
    noDoubleSpace l = true →
    collapseWsGo false l = l ∧ (l.head? ≠ some ' ' → collapseWsGo true l = l) := by
  intro l
  induction l with
  | nil => intro _ _; exact ⟨rfl, fun _ => rfl⟩
  | cons a l ih =>
    intro hAll hnds
    rw [noDoubleSpace_cons, Bool.and_eq_true] at hnds
    have hTail : ∀ c ∈ l, isAsciiDigit c = true ∨ isAsciiLowerAlpha c = true ∨ c = ' ' :=
      fun c hc => hAll c (List.mem_cons_of_mem _ hc)
    have ihl := ih hTail hnds.2
    by_cases haSp : a = ' '
    · subst haSp
      have hTailHead : l.head? ≠ some ' ' := by
        intro hc
        rw [hc] at hnds
        have := hnds.1
        simp at this
      constructor
      · rw [collapseWsGo, if_pos isPySpace_space, ihl.2 hTailHead]
      · intro hcontra
        exact absurd rfl hcontra
    · have haNotSp : isPySpace a = false := by
        rcases hAll a (List.mem_cons_self a l) with h1 | h1 | h1
        · exact not_isPySpace_of_isAsciiDigit h1
        · exact not_isPySpace_of_isAsciiLowerAlpha h1
        · exact absurd h1 haSp
      have haNotSp' : ¬(isPySpace a = true) := by rw [haNotSp]; exact Bool.false_ne_true
      constructor
      · rw [collapseWsGo, if_neg haNotSp', ihl.1]
      · intro _
        rw [collapseWsGo, if_neg haNotSp', ihl.1]

theorem pyStrip_id {l : List Char}
    (hAll : ∀ c ∈ l, isAsciiDigit c = true ∨ isAsciiLowerAlpha c = true ∨ c = ' ')
    (hh : l.head? ≠ some ' ') (hl : l.getLast? ≠ some ' ') : pyStrip l = l := by
  have hNotSpHead : ∀ (m : List Char),
      (∀ c ∈ m, isAsciiDigit c = true ∨ isAsciiLowerAlpha c = true ∨ c = ' ') →
      m.head? ≠ some ' ' → ∀ c, m.head? = some c → isPySpace c = false := by
    intro m hAllM hhM c hcm
    have hmem : c ∈ m := List.mem_of_mem_head? hcm
    rcases hAllM c hmem with h1 | h1 | h1
    · exact not_isPySpace_of_isAsciiDigit h1
    · exact not_isPySpace_of_isAsciiLowerAlpha h1
    · rw [h1] at hcm; exact absurd hcm hhM
  have h1 : l.dropWhile isPySpace = l :=
    dropWhile_eq_self_of_head (hNotSpHead l hAll hh)
  have h2 : l.reverse.dropWhile isPySpace = l.reverse := by
    apply dropWhile_eq_self_of_head
    apply hNotSpHead l.reverse
    · intro c hc
      exact hAll c (List.mem_reverse.mp hc)
    · rw [List.head?_reverse]
      exact hl
  unfold pyStrip
  rw [h1, h2, List.reverse_reverse]

/-- On a list in normalized shape that number-word substitution leaves
unchanged, the whole normalization pipeline is the identity. -/
theorem normalize_answer_fixed {y : List Char} (hshape : NormalizedShape y)
    (hsub : substNumberWords y = y) : normalize_answer asciiFold (some y) = y := by
  obtain ⟨hAll, hnds, hh, hl⟩ := hshape
  have hfold : asciiFold y = y :=
    map_id_of_mem y fun c hc => asciiLower_eq_self_of_allowed (hAll c hc)
  have hstrip : stripNonAlnumSpace y = y := by
    apply List.filter_eq_self.mpr
    intro c hc
    rcases hAll c hc with h1 | h1 | h1
    · simp [h1]
    · simp [h1]
    · subst h1; decide
  have hcoll : collapseWs y = y := (collapseWsGo_id y hAll hnds).1
  have hstripId : pyStrip y = y := pyStrip_id hAll hh hl
  show pyStrip (collapseWs (stripNonAlnumSpace (substNumberWords (asciiFold y)))) = y
  rw [hfold, hsub, hstrip, hcoll, hstripId]

/-! ## Claims about normalization (C4, C5, C10) -/

/-- Claim C10 (confirmed): for every input — `None` included — and for
every behavior of the external Unicode prefix, the output of
`_normalize_answer` contains only ASCII digits, ASCII lowercase letters
and spaces, with no two consecutive spaces and no leading or trailing
space. -/
theorem C10_normalized_output (pre : List Char → List Char) (s : Option (List Char)) :
    NormalizedShape (normalize_answer pre s) :=
  normalize_answer_shape pre s

/-- Witness for C10 at a concrete input. -/
theorem C10_witness : NormalizedShape (normalize_answer asciiFold (some ("  A  b!  ".data))) :=
  C10_normalized_output asciiFold (some ("  A  b!  ".data))

/-- Claim C4 (counterexample): normalization is NOT idempotent.
Punctuation stripping can create a new whole-word number word:
`normalize("o;ne") = "one"` (no match of `one` before the `;` is
removed), but `normalize("one") = "1"`. -/
theorem C4_counterexample :
    normalize_answer asciiFold (some (normalize_answer asciiFold (some ("o;ne".data)))) ≠
      normalize_answer asciiFold (some ("o;ne".data)) := by
  decide

/-- Claim C4 (amended): normalization is idempotent on every input whose
normalized form is left unchanged by number-word substitution; the
second application runs on the ASCII-only output of the first, where the
Unicode prefix acts as `asciiFold`. -/
theorem C4_idempotent_on_fixed (pre : List Char → List Char) (s : Option (List Char))
    (h : substNumberWords (normalize_answer pre s) = normalize_answer pre s) :
    normalize_answer asciiFold (some (normalize_answer pre s)) = normalize_answer pre s :=
  normalize_answer_fixed (normalize_answer_shape pre s) h

/-- Witness for the amended C4 at the input `"Hello, World!"`. -/
theorem C4_witness :
    normalize_answer asciiFold (some (normalize_answer asciiFold (some ("Hello, World!".data)))) =
      normalize_answer asciiFold (some ("Hello, World!".data)) :=
  C4_idempotent_on_fixed asciiFold (some ("Hello, World!".data)) (by decide)

/-- Claim C5 (counterexample): `normalize("seven-teen")` is NOT the two
tokens `"seven teen"`: `\b` matches at the hyphen, so `seven` is first
substituted by `7`, and punctuation stripping then deletes the hyphen
instead of leaving a token break. -/
theorem C5_counterexample :
    normalize_answer asciiFold (some ("seven-teen".data)) ≠ "seven teen".data := by
  decide

/-- Claim C5 (amended): `normalize("seven-teen") = "7teen"` — the hyphen
is a word boundary, so `seven` is substituted, and the hyphen itself is
deleted by punctuation stripping, merging the tokens; the result is
still not `"17"`. -/
theorem C5_seven_teen :
    normalize_answer asciiFold (some ("seven-teen".data)) = "7teen".data ∧
    normalize_answer asciiFold (some ("seven-teen".data)) ≠ "17".data := by
  constructor
  · decide
  · decide

/-! ## The id map -/

theorem find?_qid_cons (qid : List Char) (r : QRecord) (l : List QRecord) :
    (r :: l).find? (fun q => q.id == qid) =
      if (r.id == qid) = true then some r else l.find? fun q => q.id == qid := by
  by_cases h : (r.id == qid) = true
  · rw [if_pos h]
    exact List.find?_cons_of_pos _ h
  · rw [if_neg h]
    exact List.find?_cons_of_neg _ h

theorem buildIdMap_eq_find? (qs : List QRecord) (qid : List Char) :
    buildIdMap qs qid = qs.reverse.find? fun r => r.id == qid := by
  induction qs using List.reverseRecOn with
  | nil => rfl
  | append_singleton l r ih =>
    unfold buildIdMap at ih ⊢
    rw [List.foldl_append, List.foldl_cons, List.foldl_nil, List.reverse_append,
      List.reverse_singleton, List.singleton_append, find?_qid_cons]
    by_cases hr : (r.id == qid) = true
    · rw [if_pos hr, if_pos hr]
    · rw [if_neg hr, if_neg hr, ih]

theorem buildIdMap_eq_none_iff (qs : List QRecord) (qid : List Char) :
    buildIdMap qs qid = none ↔ ∀ r ∈ qs, r.id ≠ qid := by
  rw [buildIdMap_eq_find?, List.find?_eq_none]
  constructor
  · intro h r hr
    have := h r (List.mem_reverse.mpr hr)
    simpa using this
  · intro h r hr
    have := h r (List.mem_reverse.mp hr)
    simpa using this

theorem buildIdMap_some {qs : List QRecord} {qid : List Char} {r : QRecord}
    (h : buildIdMap qs qid = some r) : r ∈ qs ∧ r.id = qid := by
  rw [buildIdMap_eq_find?] at h
  have h1 := List.mem_of_find?_eq_some h
  have h2 := List.find?_some h
  exact ⟨List.mem_reverse.mp h1, by simpa using h2⟩

theorem find?_append_none {p : QRecord → Bool} : ∀ {xs ys : List QRecord},
    xs.find? p = none → (xs ++ ys).find? p = ys.find? p := by
  intro xs
  induction xs with
  | nil => intro ys _; rfl
  | cons a xs ih =>
    intro ys h
    by_cases hpa : p a = true
    · rw [List.find?_cons_of_pos _ hpa] at h
      cases h
    · rw [List.find?_cons_of_neg _ hpa] at h
      rw [List.cons_append, List.find?_cons_of_neg _ hpa]
      exact ih h

theorem buildIdMap_last_wins (l1 l2 : List QRecord) (r : QRecord)
    (h : ∀ q ∈ l2, q.id ≠ r.id) : buildIdMap (l1 ++ r :: l2) r.id = some r := by
  rw [buildIdMap_eq_find?, List.reverse_append, List.reverse_cons, List.append_assoc]
  have h2 : l2.reverse.find? (fun q => q.id == r.id) = none := by
    rw [List.find?_eq_none]
    intro q hq
    simpa using h q (List.mem_reverse.mp hq)
  rw [find?_append_none h2, List.singleton_append, find?_qid_cons,
    if_pos (by simp : (r.id == r.id) = true)]

/-! ## Claim C1: the validate contract -/

/-- Claim C1 (confirmed): `validate_answer` (after the reload step)
fails with `UnknownQuestion` exactly when the id is not a key of the
id→record mapping; with a known id and an absent answer it returns
`false` without error; with a known id and a present answer it returns
`true` iff the normalized stored answer equals the normalized given
answer. -/
theorem C1_validate_contract (pre : List Char → List Char) (qs : List QRecord)
    (qid : List Char) (ua : Option (List Char)) :
    (validate_core pre qs qid ua = Except.error QError.UnknownQuestion ↔
      buildIdMap qs qid = none) ∧
    (buildIdMap qs qid = none ↔ ∀ r ∈ qs, r.id ≠ qid) ∧
    (∀ r, buildIdMap qs qid = some r → ua = none →
      validate_core pre qs qid ua = Except.ok false) ∧
    (∀ r a, buildIdMap qs qid = some r → ua = some a →
      (validate_core pre qs qid ua = Except.ok true ↔
        normalize_answer pre (some r.answer) = normalize_answer pre (some a))) := by
  refine ⟨?_, buildIdMap_eq_none_iff qs qid, ?_, ?_⟩
  · cases hb : buildIdMap qs qid with
    | none => simp [validate_core, hb]
    | some r =>
      cases ua with
      | none => simp [validate_core, hb]
      | some a => simp [validate_core, hb]
  · intro r hb hua
    subst hua
    simp [validate_core, hb]
  · intro r a hb hua
    subst hua
    simp [validate_core, hb]

/-- Witness for C1 (the spec's validate round-trip): the stored answer
`"Paris"` validates against `"  paris "`. -/
theorem C1_witness :
    validate_core asciiFold [⟨"i".data, "qq".data, "Paris".data⟩] ("i".data)
      (some ("  paris ".data)) = Except.ok true :=
  ((C1_validate_contract asciiFold [⟨"i".data, "qq".data, "Paris".data⟩] ("i".data)
      (some ("  paris ".data))).2.2.2 ⟨"i".data, "qq".data, "Paris".data⟩
      ("  paris ".data) (by decide) rfl).mpr (by decide)

/-! ## Claim C6: stable id derivation and last-loaded-wins -/

theorem hexdigest_lower_hex (bs : List Nat) :
    ∀ c ∈ hexdigest bs,
      isAsciiDigit c = true ∨ (97 ≤ c.toNat ∧ c.toNat ≤ 102) := by
  intro c hc
  unfold hexdigest at hc
  rw [List.mem_flatten] at hc
  obtain ⟨l, hl, hcl⟩ := hc
  rw [List.mem_map] at hl
  obtain ⟨b, _, rfl⟩ := hl
  have hDec : ∀ m : Fin 16, isAsciiDigit (hexDigitChar m.val) = true ∨
      (97 ≤ (hexDigitChar m.val).toNat ∧ (hexDigitChar m.val).toNat ≤ 102) := by decide
  unfold hexOfByte at hcl
  rcases List.mem_cons.mp hcl with h1 | h1
  · subst h1
    exact hDec ⟨b / 16 % 16, Nat.mod_lt _ (by norm_num)⟩
  · rcases List.mem_cons.mp h1 with h2 | h2
    · subst h2
      exact hDec ⟨b % 16, Nat.mod_lt _ (by norm_num)⟩
    · cases h2

/-- Claim C6 (confirmed): the id is the lowercase hex digest of SHA-256
applied to the UTF-8 bytes of the trimmed question text, hence
deterministic; records with identical trimmed text get identical ids;
and when records share an id, the mapping holds the last-loaded one. -/
theorem C6_stable_id (sha : List Nat → List Nat) :
    (∀ q, compute_id sha q = hexdigest (sha (utf8Encode (pyStrip q)))) ∧
    (∀ q1 q2, pyStrip q1 = pyStrip q2 → compute_id sha q1 = compute_id sha q2) ∧
    (∀ bs, ∀ c ∈ hexdigest bs,
      isAsciiDigit c = true ∨ (97 ≤ c.toNat ∧ c.toNat ≤ 102)) ∧
    (∀ l1 l2 r, (∀ q ∈ l2, q.id ≠ r.id) → buildIdMap (l1 ++ r :: l2) r.id = some r) := by
  refine ⟨fun q => rfl, ?_, hexdigest_lower_hex, buildIdMap_last_wins⟩
  intro q1 q2 h
  unfold compute_id
  rw [h]

/-- Witness for C6: texts differing only in surrounding whitespace get
the same id (under an arbitrary concrete digest function). -/
theorem C6_witness :
    compute_id (fun _ => []) (" q ".data) = compute_id (fun _ => []) ("q".data) :=
  (C6_stable_id fun _ => []).2.1 (" q ".data) ("q".data) (by decide)

/-! ## Claim C7: the load/parse contract -/

theorem splitOnFirst_spec (d : Char) : ∀ l : List Char, l.contains d = true →
    l = (splitOnFirst d l).1 ++ d :: (splitOnFirst d l).2 ∧
    ((splitOnFirst d l).1).contains d = false := by
  intro l
  induction l with
  | nil => intro h; cases h
  | cons c cs ih =>
    intro h
    by_cases hc : (c == d) = true
    · rw [splitOnFirst, if_pos hc]
      have : c = d := beq_iff_eq.mp hc
      subst this
      exact ⟨rfl, rfl⟩
    · rw [splitOnFirst, if_neg hc]
      have hcd : c ≠ d := fun hce => hc (beq_iff_eq.mpr hce)
      have hcs : cs.contains d = true := by
        rw [List.contains_cons] at h
        rcases Bool.or_eq_true_iff.mp h with h1 | h1
        · exact absurd (beq_iff_eq.mp h1).symm hcd
        · exact h1
      obtain ⟨hA, hB⟩ := ih hcs
      constructor
      · show c :: cs = c :: (splitOnFirst d cs).1 ++ d :: (splitOnFirst d cs).2
        rw [List.cons_append]
        exact congrArg (c :: ·) hA
      · show ((c :: (splitOnFirst d cs).1)).contains d = false
        rw [List.contains_cons, Bool.or_eq_false_iff]
        exact ⟨beq_eq_false_iff_ne.mpr fun hce => hcd hce.symm, hB⟩

/-- Claim C7 (confirmed): loading fails with `ResourceNotFound` exactly
when the backing file is missing; with `EmptyStore` exactly when no line
parses to a record; a line is skipped exactly when it is blank, has no
delimiter, or has an empty trimmed part; and a parsed record carries the
trimmed parts around the first delimiter occurrence (with the derived
id). -/
theorem C7_load_contract (sha : List Nat → List Nat) :
    (∀ file, load_questions_internal sha file = Except.error QError.ResourceNotFound ↔
      file = none) ∧
    (∀ lines, load_questions_internal sha (some lines) = Except.error QError.EmptyStore ↔
      ∀ raw ∈ lines, parseLine sha raw = none) ∧
    (∀ line, line.contains '|' = true →
      line = (splitOnFirst '|' line).1 ++ '|' :: (splitOnFirst '|' line).2 ∧
      ((splitOnFirst '|' line).1).contains '|' = false) ∧
    (∀ raw, parseLine sha raw = none ↔
      (pyStrip raw = [] ∨ (pyStrip raw).contains '|' = false ∨
       pyStrip (splitOnFirst '|' (pyStrip raw)).1 = [] ∨
       pyStrip (splitOnFirst '|' (pyStrip raw)).2 = [])) ∧
    (∀ raw r, parseLine sha raw = some r →
      (pyStrip raw).contains '|' = true ∧
      r.question = pyStrip (splitOnFirst '|' (pyStrip raw)).1 ∧
      r.answer = pyStrip (splitOnFirst '|' (pyStrip raw)).2 ∧
      r.id = compute_id sha r.question ∧ r.question ≠ [] ∧ r.answer ≠ []) := by
  refine ⟨?_, ?_, splitOnFirst_spec '|', ?_, ?_⟩
  · intro file
    cases file with
    | none => simp [load_questions_internal]
    | some lines =>
      simp only [load_questions_internal]
      by_cases h : (lines.filterMap (parseLine sha)).isEmpty = true
      · rw [if_pos h]
        simp
      · rw [if_neg h]
        simp
  · intro lines
    simp only [load_questions_internal]
    by_cases h : (lines.filterMap (parseLine sha)).isEmpty = true
    · rw [if_pos h]
      rw [List.isEmpty_iff, List.filterMap_eq_nil_iff] at h
      simp only [true_iff]
      exact h
    · rw [if_neg h]
      rw [List.isEmpty_iff, List.filterMap_eq_nil_iff] at h
      apply iff_of_false
      · simp
      · exact h
  · intro raw
    by_cases h1 : (pyStrip raw).isEmpty = true
    · apply iff_of_true
      · simp only [parseLine]
        rw [if_pos h1]
      · exact Or.inl (List.isEmpty_iff.mp h1)
    · have h1' : pyStrip raw ≠ [] := fun hc => h1 (List.isEmpty_iff.mpr hc)
      by_cases h2 : (pyStrip raw).contains '|' = true
      · have h2n : ¬(!(pyStrip raw).contains '|') = true := by
          rw [Bool.not_eq_true', h2]
          simp
        by_cases h3 : (pyStrip (splitOnFirst '|' (pyStrip raw)).1).isEmpty = true
        · apply iff_of_true
          · simp only [parseLine]
            rw [if_neg h1, if_neg h2n, if_neg (by simp [h3])]
          · exact Or.inr (Or.inr (Or.inl (List.isEmpty_iff.mp h3)))
        · by_cases h4 : (pyStrip (splitOnFirst '|' (pyStrip raw)).2).isEmpty = true
          · apply iff_of_true
            · simp only [parseLine]
              rw [if_neg h1, if_neg h2n, if_neg (by simp [h4])]
            · exact Or.inr (Or.inr (Or.inr (List.isEmpty_iff.mp h4)))
          · apply iff_of_false
            · simp only [parseLine]
              rw [if_neg h1, if_neg h2n,
                if_pos (by simp [Bool.not_eq_true', Bool.eq_false_iff, h3, h4] :
                  ((!(pyStrip (splitOnFirst '|' (pyStrip raw)).1).isEmpty) &&
                   (!(pyStrip (splitOnFirst '|' (pyStrip raw)).2).isEmpty)) = true)]
              simp
            · intro hc
              rcases hc with hc | hc | hc | hc
              · exact h1' hc
              · rw [hc] at h2; cases h2
              · exact h3 (List.isEmpty_iff.mpr hc)
              · exact h4 (List.isEmpty_iff.mpr hc)
      · apply iff_of_true
        · simp only [parseLine]
          rw [if_neg h1, if_pos (by rw [Bool.not_eq_true']; exact Bool.eq_false_iff.mpr h2 :
            (!(pyStrip raw).contains '|') = true)]
        · exact Or.inr (Or.inl (Bool.eq_false_iff.mpr h2))
  · intro raw r h
    simp only [parseLine] at h
    by_cases h1 : (pyStrip raw).isEmpty = true
    · rw [if_pos h1] at h
      cases h
    · rw [if_neg h1] at h
      by_cases h2 : (pyStrip raw).contains '|' = true
      · rw [if_neg (by rw [Bool.not_eq_true', h2]; simp :
            ¬(!(pyStrip raw).contains '|') = true)] at h
        by_cases h3 : ((!(pyStrip (splitOnFirst '|' (pyStrip raw)).1).isEmpty) &&
            (!(pyStrip (splitOnFirst '|' (pyStrip raw)).2).isEmpty)) = true
        · rw [if_pos h3] at h
          rw [Bool.and_eq_true, Bool.not_eq_true', Bool.not_eq_true'] at h3
          obtain ⟨h3a, h3b⟩ := h3
          cases h
          refine ⟨h2, rfl, rfl, rfl, ?_, ?_⟩
          · intro hc
            rw [← List.isEmpty_iff] at hc
            rw [hc] at h3a
            cases h3a
          · intro hc
            rw [← List.isEmpty_iff] at hc
            rw [hc] at h3b
            cases h3b
        · rw [if_neg h3] at h
          cases h
      · rw [if_pos (by rw [Bool.not_eq_true']; exact Bool.eq_false_iff.mpr h2 :
            (!(pyStrip raw).contains '|') = true)] at h
        cases h

/-- Witness for C7: the line `" q | a "` parses to the record with
question `"q"` and answer `"a"`. -/
theorem C7_witness :
    parseLine (fun _ => []) (" q | a ".data) =
      some ⟨compute_id (fun _ => []) ("q".data), "q".data, "a".data⟩ ∧
    (pyStrip (" q | a ".data)).contains '|' = true := by
  refine ⟨by decide, ?_⟩
  exact ((C7_load_contract fun _ => []).2.2.2.2 (" q | a ".data)
    ⟨compute_id (fun _ => []) ("q".data), "q".data, "a".data⟩ (by decide)).1

/-! ## Claim C8: the reload policy -/

/-- Claim C8 (confirmed): every read operation first runs the reload
check.  When the resource is missing the operation fails with
`ResourceNotFound` no matter what is cached; when the recorded timestamp
differs from the current one (or none is recorded) the data is
re-parsed and the sequence with the new timestamp is swapped in; when
the timestamps agree the cached state is served unchanged, and a read
serves exactly the state the reload check produced. -/
theorem C8_reload_policy (sha : List Nat → List Nat) (pre : List Char → List Char)
    (pick : Nat → Nat) (fs : FileSys) (st : StoreState) (qid : List Char)
    (ua : Option (List Char)) (used : List (List Char)) :
    (fs.contents = none →
      get_random_question sha pick fs st used = Except.error QError.ResourceNotFound ∧
      validate_answer sha pre fs st qid ua = Except.error QError.ResourceNotFound ∧
      load_questions sha fs st = Except.error QError.ResourceNotFound) ∧
    (∀ lines, fs.contents = some lines → st.mtimeSeen ≠ some fs.mtime →
      (∀ parsed, load_questions_internal sha (some lines) = Except.ok parsed →
        reload_if_needed sha fs st false = Except.ok ⟨parsed, some fs.mtime⟩) ∧
      (∀ e, load_questions_internal sha (some lines) = Except.error e →
        reload_if_needed sha fs st false = Except.error e)) ∧
    (∀ lines, fs.contents = some lines → st.mtimeSeen = some fs.mtime →
      reload_if_needed sha fs st false = Except.ok st) ∧
    (∀ st', reload_if_needed sha fs st false = Except.ok st' →
      load_questions sha fs st =
        Except.ok (st'.questions.map (fun r => (r.question, r.answer)), st')) := by
  refine ⟨?_, ?_, ?_, ?_⟩
  · intro hmiss
    refine ⟨?_, ?_, ?_⟩
    · simp [get_random_question, reload_if_needed, hmiss]
    · simp [validate_answer, reload_if_needed, hmiss]
    · simp [load_questions, reload_if_needed, hmiss]
  · intro lines hsome hne
    have hcond : (false || st.mtimeSeen.isNone || st.mtimeSeen != some fs.mtime) = true := by
      rw [Bool.false_or, Bool.or_eq_true_iff]
      right
      rw [bne_iff_ne]
      exact hne
    constructor
    · intro parsed hp
      simp only [reload_if_needed, hsome, hcond, if_true, hp]
    · intro e he
      simp only [reload_if_needed, hsome, hcond, if_true, he]
  · intro lines hf heq
    have h1 : st.mtimeSeen.isNone = false := by
      rw [heq]
      rfl
    have h2 : (st.mtimeSeen != some fs.mtime) = false := by
      rw [bne_eq_false_iff_eq]
      exact heq
    simp only [reload_if_needed, hf, Bool.false_or, h1, h2, Bool.or_self]
    rw [if_neg]
    simp
  · intro st' hrel
    simp only [load_questions, hrel]

/-- Witness for C8: with the resource missing, a validate call on a
store with cached data fails with `ResourceNotFound` instead of serving
the cache. -/
theorem C8_witness :
    validate_answer (fun _ => []) asciiFold ⟨none, 0⟩
      ⟨[⟨"i".data, "qq".data, "A".data⟩], some 5⟩ ("i".data) (some ("A".data)) =
      Except.error QError.ResourceNotFound :=
  ((C8_reload_policy (fun _ => []) asciiFold (fun _ => 0) ⟨none, 0⟩
      ⟨[⟨"i".data, "qq".data, "A".data⟩], some 5⟩ ("i".data) (some ("A".data)) []).1 rfl).2.1

/-! ## Claim C3: the dispensed result -/

theorem contains_eq_true_iff_mem {l : List (List Char)} {a : List Char} :
    l.contains a = true ↔ a ∈ l := List.elem_iff

theorem pySplitAux_tokens : ∀ (s acc : List Char), (∀ c ∈ acc, isPySpace c = false) →
    ∀ t ∈ pySplitAux s acc, t ≠ [] ∧ ∀ c ∈ t, isPySpace c = false := by
  intro s
  induction s with
  | nil =>
    intro acc hacc t ht
    by_cases h : acc.isEmpty = true
    · rw [pySplitAux, if_pos h] at ht
      cases ht
    · rw [pySplitAux, if_neg h] at ht
      rcases List.mem_cons.mp ht with h1 | h1
      · subst h1
        constructor
        · intro hc
          rw [List.reverse_eq_nil_iff] at hc
          exact h (List.isEmpty_iff.mpr hc)
        · intro c hc
          exact hacc c (List.mem_reverse.mp hc)
      · cases h1
  | cons a s ih =>
    intro acc hacc t ht
    by_cases ha : isPySpace a = true
    · rw [pySplitAux, if_pos ha] at ht
      by_cases h : acc.isEmpty = true
      · rw [if_pos h] at ht
        exact ih [] (fun c hc => absurd hc (List.not_mem_nil c)) t ht
      · rw [if_neg h] at ht
        rcases List.mem_cons.mp ht with h1 | h1
        · subst h1
          constructor
          · intro hc
            rw [List.reverse_eq_nil_iff] at hc
            exact h (List.isEmpty_iff.mpr hc)
          · intro c hc
            exact hacc c (List.mem_reverse.mp hc)
        · exact ih [] (fun c hc => absurd hc (List.not_mem_nil c)) t h1
    · rw [pySplitAux, if_neg ha] at ht
      apply ih (a :: acc) ?_ t ht
      intro c hc
      rcases List.mem_cons.mp hc with h1 | h1
      · subst h1
        exact Bool.eq_false_iff.mpr ha
      · exact hacc c h1

theorem getD_map (f : QRecord → QRecord) : ∀ (l : List QRecord) (n : Nat) (d : QRecord),
    (l.map f).getD n (f d) = f (l.getD n d) := by
  intro l
  induction l with
  | nil => intro n d; cases n <;> rfl
  | cons a l ih =>
    intro n d
    cases n with
    | zero => rfl
    | succ n =>
      rw [List.map_cons, List.getD_cons_succ, List.getD_cons_succ]
      exact ih n d

theorem availableOf_map_erase (qs : List QRecord) (used : List (List Char)) :
    availableOf (qs.map eraseAnswer) used = (availableOf qs used).map eraseAnswer := by
  unfold availableOf
  rw [List.filter_map]
  rfl

theorem chosenOf_map_erase (pick : Nat → Nat) (qs : List QRecord) (used : List (List Char)) :
    chosenOf pick (qs.map eraseAnswer) used = eraseAnswer (chosenOf pick qs used) := by
  unfold chosenOf
  rw [availableOf_map_erase, List.length_map]
  exact getD_map eraseAnswer (availableOf qs used) (pick (availableOf qs used).length)
    emptyRecord

/-- Claim C3 (confirmed): every successful dispense returns exactly the
structure `{id, question, words}` built from a stored record, where
`words` is `str.split()` of the question text — non-empty tokens free of
whitespace — and the canonical answer influences nothing: erasing every
answer from the store yields the identical result. -/
theorem C3_result_shape (pick : Nat → Nat) (qs : List QRecord) (used : List (List Char))
    (hpick : ∀ n, 0 < n → pick n < n) :
    (∀ res used', get_random_core pick qs used = Except.ok (res, used') →
      ∃ r, r ∈ qs ∧ res = ⟨r.id, r.question, pySplit r.question⟩ ∧
        ∀ t ∈ res.words, t ≠ [] ∧ ∀ c ∈ t, isPySpace c = false) ∧
    get_random_core pick qs used = get_random_core pick (qs.map eraseAnswer) used := by
  constructor
  · intro res used' h
    simp only [get_random_core] at h
    by_cases he : (availableOf qs used).isEmpty = true
    · rw [if_pos he] at h
      cases h
    · rw [if_neg he] at h
      have hne : availableOf qs used ≠ [] := fun hc => he (List.isEmpty_iff.mpr hc)
      have hlen : 0 < (availableOf qs used).length := List.length_pos.mpr hne
      have hidx := hpick _ hlen
      have hchosenMem : chosenOf pick qs used ∈ availableOf qs used := by
        unfold chosenOf
        rw [List.getD_eq_getElem (availableOf qs used) emptyRecord hidx]
        exact (availableOf qs used).getElem_mem _
      have hmem : chosenOf pick qs used ∈ qs := (List.mem_filter.mp hchosenMem).1
      cases h
      refine ⟨chosenOf pick qs used, hmem, rfl, ?_⟩
      intro t ht
      exact pySplitAux_tokens _ [] (fun c hc => absurd hc (List.not_mem_nil c)) t ht
  · simp only [get_random_core, availableOf_map_erase, chosenOf_map_erase]
    by_cases he : (availableOf qs used).isEmpty = true
    · rw [List.isEmpty_iff] at he
      rw [he]
      rfl
    · have he' : ((availableOf qs used).map eraseAnswer).isEmpty = false := by
        rw [List.isEmpty_eq_false_iff_exists_mem]
        have hne : availableOf qs used ≠ [] := fun hc => he (List.isEmpty_iff.mpr hc)
        cases hav : availableOf qs used with
        | nil => exact absurd hav hne
        | cons a l => exact ⟨eraseAnswer a, List.mem_map_of_mem _ (List.mem_cons_self a l)⟩
      rw [if_neg he, if_neg (by rw [he']; simp)]
      rfl

/-- Witness for C3: a concrete dispense is unchanged when the store's
answers are erased. -/
theorem C3_witness :
    get_random_core (fun _ => 0) [⟨"i".data, "a b".data, "x".data⟩] [] =
      get_random_core (fun _ => 0) ([⟨"i".data, "a b".data, "x".data⟩].map eraseAnswer) [] :=
  (C3_result_shape (fun _ => 0) [⟨"i".data, "a b".data, "x".data⟩] [] fun _ h => h).2

/-! ## Claims C2 and C9: dispensing without replacement -/

theorem mem_unusedSet {qs : List QRecord} {used : List (List Char)} {i : List Char} :
    i ∈ unusedSet qs used ↔ (∃ r ∈ qs, r.id = i) ∧ i ∉ used := by
  unfold unusedSet
  rw [Finset.mem_filter, List.mem_toFinset, List.mem_map]

theorem available_empty_iff (qs : List QRecord) (used : List (List Char)) :
    availableOf qs used = [] ↔ unusedSet qs used = ∅ := by
  unfold availableOf
  rw [List.filter_eq_nil_iff, Finset.eq_empty_iff_forall_not_mem]
  constructor
  · intro h i hi
    rw [mem_unusedSet] at hi
    obtain ⟨⟨r, hr, hid⟩, hnu⟩ := hi
    apply hnu
    rw [← hid]
    have hb : used.contains r.id = true := by
      cases hc : used.contains r.id with
      | true => rfl
      | false =>
        exact absurd (by rw [Bool.not_eq_true']; exact hc) (h r hr)
    exact contains_eq_true_iff_mem.mp hb
  · intro h r hr hcontra
    apply h r.id
    rw [mem_unusedSet]
    refine ⟨⟨r, hr, rfl⟩, ?_⟩
    intro hmem
    rw [Bool.not_eq_true'] at hcontra
    have := contains_eq_true_iff_mem.mpr hmem
    rw [hcontra] at this
    cases this

theorem core_exhausted_iff (pick : Nat → Nat) (qs : List QRecord) (used : List (List Char)) :
    get_random_core pick qs used = Except.error QError.Exhausted ↔
      ∀ r ∈ qs, r.id ∈ used := by
  have hchar : (∀ r ∈ qs, r.id ∈ used) ↔ availableOf qs used = [] := by
    unfold availableOf
    rw [List.filter_eq_nil_iff]
    constructor
    · intro h r hr hcontra
      rw [Bool.not_eq_true'] at hcontra
      have := contains_eq_true_iff_mem.mpr (h r hr)
      rw [hcontra] at this
      cases this
    · intro h r hr
      have hb : used.contains r.id = true := by
        cases hc : used.contains r.id with
        | true => rfl
        | false =>
          exact absurd (by rw [Bool.not_eq_true']; exact hc) (h r hr)
      exact contains_eq_true_iff_mem.mp hb
  rw [hchar]
  simp only [get_random_core]
  by_cases he : (availableOf qs used).isEmpty = true
  · rw [if_pos he]
    simp only [true_iff]
    exact List.isEmpty_iff.mp he
  · rw [if_neg he]
    apply iff_of_false
    · simp
    · exact fun hc => he (List.isEmpty_iff.mpr hc)

theorem core_step (pick : Nat → Nat) (qs : List QRecord) (used : List (List Char))
    (hpick : ∀ n, 0 < n → pick n < n) (hne : unusedSet qs used ≠ ∅) :
    get_random_core pick qs used =
      Except.ok (⟨(chosenOf pick qs used).id, (chosenOf pick qs used).question,
        pySplit (chosenOf pick qs used).question⟩, (chosenOf pick qs used).id :: used) ∧
    (chosenOf pick qs used).id ∈ unusedSet qs used ∧
    unusedSet qs ((chosenOf pick qs used).id :: used) =
      (unusedSet qs used).erase (chosenOf pick qs used).id := by
  have hav : availableOf qs used ≠ [] := by
    intro hc
    exact hne ((available_empty_iff qs used).mp hc)
  have hlen : 0 < (availableOf qs used).length := List.length_pos.mpr hav
  have hidx := hpick _ hlen
  have hchosenMem : chosenOf pick qs used ∈ availableOf qs used := by
    unfold chosenOf
    rw [List.getD_eq_getElem (availableOf qs used) emptyRecord hidx]
    exact (availableOf qs used).getElem_mem _
  have hfil := List.mem_filter.mp hchosenMem
  have hidNot : (chosenOf pick qs used).id ∉ used := by
    intro hc
    have h2 := hfil.2
    rw [Bool.not_eq_true'] at h2
    have h1 := contains_eq_true_iff_mem.mpr hc
    rw [h1] at h2
    cases h2
  refine ⟨?_, ?_, ?_⟩
  · simp only [get_random_core]
    rw [if_neg (fun hc => hav (List.isEmpty_iff.mp hc))]
    unfold setAdd
    rw [if_neg (fun hc => hidNot (contains_eq_true_iff_mem.mp hc))]
  · rw [mem_unusedSet]
    exact ⟨⟨chosenOf pick qs used, hfil.1, rfl⟩, hidNot⟩
  · ext i
    rw [Finset.mem_erase, mem_unusedSet, mem_unusedSet, List.mem_cons]
    constructor
    · rintro ⟨hex, hnin⟩
      push_neg at hnin
      exact ⟨hnin.1, hex, hnin.2⟩
    · rintro ⟨hne', hex, hnin⟩
      refine ⟨hex, ?_⟩
      rintro (hc | hc)
      · exact hne' hc
      · exact hnin hc

theorem callSeq_run (pick : Nat → Nat) (qs : List QRecord)
    (hpick : ∀ n, 0 < n → pick n < n) :
    ∀ (k : Nat) (used : List (List Char)), (unusedSet qs used).card = k →
    ∃ out : List (List Char),
      out.length = k ∧ out.Nodup ∧ (∀ i ∈ out, i ∉ used) ∧
      callSeq pick qs k used = out.map Except.ok ∧
      callSeq pick qs (k + 1) used = out.map Except.ok ++ [Except.error QError.Exhausted] := by
  intro k
  induction k with
  | zero =>
    intro used hcard
    refine ⟨[], rfl, List.nodup_nil, fun i hi => absurd hi (List.not_mem_nil i), rfl, ?_⟩
    have hempty : unusedSet qs used = ∅ := Finset.card_eq_zero.mp hcard
    have hexh : get_random_core pick qs used = Except.error QError.Exhausted := by
      simp only [get_random_core]
      rw [if_pos (List.isEmpty_iff.mpr ((available_empty_iff qs used).mpr hempty))]
    rw [callSeq, hexh]
    rfl
  | succ k ih =>
    intro used hcard
    have hne : unusedSet qs used ≠ ∅ := by
      intro hc
      rw [hc] at hcard
      cases hcard
    obtain ⟨hok, hmem, herase⟩ := core_step pick qs used hpick hne
    have hcard' : (unusedSet qs ((chosenOf pick qs used).id :: used)).card = k := by
      rw [herase, Finset.card_erase_of_mem hmem, hcard]
      rfl
    obtain ⟨out, hlen, hnodup, hfresh, hrun, hrun1⟩ := ih _ hcard'
    have hidNotUsed : (chosenOf pick qs used).id ∉ used :=
      (mem_unusedSet.mp hmem).2
    refine ⟨(chosenOf pick qs used).id :: out, ?_, ?_, ?_, ?_, ?_⟩
    · rw [List.length_cons, hlen]
    · rw [List.nodup_cons]
      refine ⟨?_, hnodup⟩
      intro hc
      exact hfresh _ hc (List.mem_cons_self _ _)
    · intro i hi
      rcases List.mem_cons.mp hi with h1 | h1
      · subst h1
        exact hidNotUsed
      · intro hc
        exact hfresh i h1 (List.mem_cons_of_mem _ hc)
    · rw [callSeq, hok]
      show Except.ok (chosenOf pick qs used).id ::
        callSeq pick qs k ((chosenOf pick qs used).id :: used) = _
      rw [hrun]
      rfl
    · rw [callSeq, hok]
      show Except.ok (chosenOf pick qs used).id ::
        callSeq pick qs (k + 1) ((chosenOf pick qs used).id :: used) = _
      rw [hrun1]
      rfl

/-- Claim C2 (counterexample): a store holding two records (loaded from
two lines with the same question text, hence one shared id) makes the
second of `N = 2` consecutive calls fail with `Exhausted` instead of
returning a second distinct id. -/
theorem C2_counterexample :
    dupStore.length = 2 ∧
    callSeq (fun _ => 0) dupStore (dupStore.length + 1) [] =
      [Except.ok ("h".data), Except.error QError.Exhausted,
       Except.error QError.Exhausted] := by
  constructor
  · rfl
  · rfl

/-- Claim C2 (amended, for `N` = the number of distinct question
identities the store holds — duplicate trimmed texts share an id):
starting from an empty used set, `N` consecutive dispenses succeed with
`N` pairwise-distinct ids and the `(N+1)`-th fails with `Exhausted`;
moreover `Exhausted` is raised exactly when every record's id is in the
used set. -/
theorem C2_without_replacement (pick : Nat → Nat) (qs : List QRecord)
    (hpick : ∀ n, 0 < n → pick n < n) :
    (∃ out : List (List Char), out.length = numQuestions qs ∧ out.Nodup ∧
      callSeq pick qs (numQuestions qs + 1) [] =
        out.map Except.ok ++ [Except.error QError.Exhausted]) ∧
    (∀ used, get_random_core pick qs used = Except.error QError.Exhausted ↔
      ∀ r ∈ qs, r.id ∈ used) := by
  constructor
  · have hcard : (unusedSet qs []).card = numQuestions qs := by
      unfold unusedSet numQuestions
      rw [Finset.filter_true_of_mem fun i _ => List.not_mem_nil i]
      rfl
    obtain ⟨out, hlen, hnodup, _, _, hrun1⟩ := callSeq_run pick qs hpick _ [] hcard
    exact ⟨out, hlen, hnodup, hrun1⟩
  · intro used
    exact core_exhausted_iff pick qs used

/-- Witness for the amended C2 on a two-question store. -/
theorem C2_witness :
    (∃ out : List (List Char),
      out.length = numQuestions [⟨"x".data, "q1".data, "a1".data⟩,
        ⟨"y".data, "q2".data, "a2".data⟩] ∧ out.Nodup ∧
      callSeq (fun _ => 0) [⟨"x".data, "q1".data, "a1".data⟩,
          ⟨"y".data, "q2".data, "a2".data⟩]
        (numQuestions [⟨"x".data, "q1".data, "a1".data⟩,
          ⟨"y".data, "q2".data, "a2".data⟩] + 1) [] =
        out.map Except.ok ++ [Except.error QError.Exhausted]) :=
  (C2_without_replacement (fun _ => 0) [⟨"x".data, "q1".data, "a1".data⟩,
    ⟨"y".data, "q2".data, "a2".data⟩] fun _ h => h).1

/-- Claim C9 (counterexample): after `clear()` the used set is empty and
`usedCount()` is `0`, but a store of two records sharing one id (two
identical question lines) dispenses only once before `Exhausted`, not up
to the full record count of 2. -/
theorem C9_counterexample :
    get_random_core (fun _ => 0) dupStore ["h".data] = Except.error QError.Exhausted ∧
    clear_cache ["h".data] = [] ∧
    dupStore.length = 2 ∧
    callSeq (fun _ => 0) dupStore dupStore.length (clear_cache ["h".data]) =
      [Except.ok ("h".data), Except.error QError.Exhausted] := by
  refine ⟨rfl, rfl, rfl, rfl⟩

/-- Claim C9 (amended): `clear()` empties the used set and never fails;
`usedCount()` is `0` immediately after; and a previously-exhausted
dispenser can dispense again, up to the number of distinct question
identities the store holds. -/
theorem C9_clear_reset (pick : Nat → Nat) (qs : List QRecord) (used : List (List Char))
    (hpick : ∀ n, 0 < n → pick n < n)
    (_hex : get_random_core pick qs used = Except.error QError.Exhausted) :
    clear_cache used = [] ∧ get_cache_size (clear_cache used) = 0 ∧
    ∃ out : List (List Char), out.length = numQuestions qs ∧ out.Nodup ∧
      callSeq pick qs (numQuestions qs) (clear_cache used) = out.map Except.ok := by
  refine ⟨rfl, rfl, ?_⟩
  have hcard : (unusedSet qs []).card = numQuestions qs := by
    unfold unusedSet numQuestions
    rw [Finset.filter_true_of_mem fun i _ => List.not_mem_nil i]
    rfl
  obtain ⟨out, hlen, hnodup, _, hrun, _⟩ := callSeq_run pick qs hpick _ [] hcard
  exact ⟨out, hlen, hnodup, hrun⟩

/-- Witness for the amended C9: a one-question store, exhausted, then
cleared, dispenses its full count again. -/
theorem C9_witness :
    clear_cache ["k".data] = [] ∧ get_cache_size (clear_cache ["k".data]) = 0 ∧
    ∃ out : List (List Char),
      out.length = numQuestions [⟨"k".data, "qq".data, "aa".data⟩] ∧ out.Nodup ∧
      callSeq (fun _ => 0) [⟨"k".data, "qq".data, "aa".data⟩]
        (numQuestions [⟨"k".data, "qq".data, "aa".data⟩]) (clear_cache ["k".data]) =
        out.map Except.ok :=
  C9_clear_reset (fun _ => 0) [⟨"k".data, "qq".data, "aa".data⟩] ["k".data]
    (fun _ h => h) rfl

end QM
